import Mathlib

/-!
# A verification model of the `spike_beans` dependency-injection core

The repository wires its spike-sorting components together through a small
dependency-injection / reactive-update layer (`spike_beans.base`): a feature
broker mapping names to bindings, lazy constrained dependency slots, a
dependency graph, and an update propagator with exactly-once semantics.
This file embeds that core in Lean and proves the specification's testable
properties about it.
-/

namespace SpikeBeans

/-- Modelled from the spec: the module `spike_beans.base` is absent from the
sources (only its tests and callers remain), so this data model follows the
specification text.  An attribute of a provider object either reads fine or
raises an unrelated fault while being probed (a computed attribute that
throws), identified here by a numeric code. -/
inductive AttrImpl where
  | ok : AttrImpl
  | raise : Nat → AttrImpl
deriving DecidableEq, Repr

/-- Modelled from the spec: the structural shape of an object — which
attributes it exposes and how probing each of them behaves. -/
abbrev Shape := List (String × AttrImpl)

/-- Modelled from the spec: a broker binding is either a ready instance
(`inst`, holding a heap object id) or a zero-argument factory (`factory`,
holding a class tag), to be instantiated lazily exactly once. -/
inductive Binding where
  | inst : Nat → Binding
  | factory : Nat → Binding
deriving DecidableEq, Repr

/-- Modelled from the spec: the error taxonomy of the core
(NameNotBound, MissingDependency, ContractViolation, unrelated fault). -/
inductive Err where
  | nameNotBound : Err
  | missingDependency : Err
  | contractViolation : Err
  | fault : Nat → Err
deriving DecidableEq, Repr

/-- Modelled from the spec: a dependency slot belongs to one owning component,
references one name, carries a capability constraint (a list of attribute
names that must be present), a missing-policy (required or optional), and a
cache holding the resolved provider once resolution succeeded. -/
structure Slot where
  owner : Nat
  featureName : String
  constraintAttrs : List String
  required : Bool
  cache : Option Nat
deriving DecidableEq, Repr

/-- Modelled from the spec: the whole-world state of the core — broker
bindings (newest first), the object heap (object id is the index), class
shapes for factory bindings, the dependency slots (slot id is the index),
the dependency edges (owner, provider) created at successful resolutions,
and the per-component recompute counters mutated by the recompute hooks. -/
structure World where
  bindings : List (String × Binding)
  shapes : List Shape
  classShapes : List Shape
  slots : List Slot
  edges : List (Nat × Nat)
  counters : Nat → Nat

/-- Look up the current binding of a name: the newest entry wins. -/
def lookupBinding (bs : List (String × Binding)) (n : String) : Option Binding :=
  (bs.find? (fun p => p.1 == n)).map Prod.snd

/-- Modelled from the spec: `Provide` — bind a name, overwriting any prior
binding (the new entry shadows older ones); no error on overwrite. -/
def provide (w : World) (n : String) (b : Binding) : World :=
  { w with bindings := (n, b) :: w.bindings }

/-- Modelled from the spec: `resolve` — an instance binding is returned as
is; a factory binding is instantiated once (allocating a fresh heap object
of the class shape) and memoized as an instance binding; an unbound name
fails with `NameNotBound`. -/
def resolve (w : World) (n : String) : Except Err Nat × World :=
  match lookupBinding w.bindings n with
  | none => (Except.error Err.nameNotBound, w)
  | some (Binding.inst oid) => (Except.ok oid, w)
  | some (Binding.factory cls) =>
      (Except.ok w.shapes.length,
        { w with
            shapes := w.shapes ++ [w.classShapes.getD cls []],
            bindings := (n, Binding.inst w.shapes.length) :: w.bindings })

/-- Modelled from the spec: the module-level `register` — bind the name,
then return the value that will ultimately be resolved (for
instance-bindings, the instance itself, identity-preserved). -/
def register (w : World) (n : String) (b : Binding) : Except Err Nat × World :=
  resolve (provide w n b) n

/-- Outcome of probing one attribute of a candidate object. -/
inductive ProbeResult where
  | present : ProbeResult
  | absent : ProbeResult
  | faultp : Nat → ProbeResult
deriving DecidableEq, Repr

/-- Modelled from the spec: probe an attribute — present, genuinely absent,
or an unrelated fault raised while computing the attribute's value. -/
def probeAttr (sh : Shape) (a : String) : ProbeResult :=
  match sh.find? (fun p => p.1 == a) with
  | none => ProbeResult.absent
  | some (_, AttrImpl.ok) => ProbeResult.present
  | some (_, AttrImpl.raise c) => ProbeResult.faultp c

/-- Three-way result of evaluating a capability constraint. -/
inductive CheckResult where
  | satisfied : CheckResult
  | violated : CheckResult
  | faulted : Nat → CheckResult
deriving DecidableEq, Repr

/-- Modelled from the spec: evaluate a `HasAttributes`-style capability
constraint: every listed attribute must be present; a genuinely absent
attribute makes the constraint violated; an unrelated fault raised while
probing surfaces unchanged. -/
def checkAttrs (sh : Shape) : List String → CheckResult
  | [] => CheckResult.satisfied
  | a :: rest =>
      match probeAttr sh a with
      | ProbeResult.present => checkAttrs sh rest
      | ProbeResult.absent => CheckResult.violated
      | ProbeResult.faultp c => CheckResult.faulted c

/-- Modelled from the spec: read a dependency slot.  A cached slot returns
its cached provider without re-resolving or re-validating.  Otherwise the
name is resolved: on `NameNotBound` a required slot fails with
`MissingDependency` and an optional slot yields the absent value `none`;
a found provider is validated against the constraint — a violation fails
with `ContractViolation` for required and optional slots alike, an
unrelated fault propagates verbatim, and a satisfied constraint caches the
provider and creates the dependency edge (owner, provider). -/
def readSlot (w : World) (i : Nat) : Except Err (Option Nat) × World :=
  match w.slots[i]? with
  | none => (Except.error Err.nameNotBound, w)
  | some s =>
      match s.cache with
      | some oid => (Except.ok (some oid), w)
      | none =>
          match resolve w s.featureName with
          | (Except.error e, w') =>
              if e = Err.nameNotBound then
                if s.required then (Except.error Err.missingDependency, w')
                else (Except.ok none, w')
              else (Except.error e, w')
          | (Except.ok oid, w') =>
              match checkAttrs (w'.shapes.getD oid []) s.constraintAttrs with
              | CheckResult.faulted c => (Except.error (Err.fault c), w')
              | CheckResult.violated => (Except.error Err.contractViolation, w')
              | CheckResult.satisfied =>
                  (Except.ok (some oid),
                    { w' with
                        slots := w'.slots.set i { s with cache := some oid },
                        edges := w'.edges ++ [(s.owner, oid)] })

/-- The dependents not yet in the visited set that one expansion step adds:
owners of an edge whose provider end is already visited. -/
def newbies (edges : List (Nat × Nat)) (s : List Nat) : List Nat :=
  (((edges.filter (fun e => decide (e.2 ∈ s))).map Prod.fst).filter
      (fun c => decide (c ∉ s))).dedup

/-- One expansion step of the reverse-dependency reachability computation. -/
def reachStep (edges : List (Nat × Nat)) (s : List Nat) : List Nat :=
  s ++ newbies edges s

/-- Saturate the reachability set: expand until nothing new is added (the
fuel bounds the number of expansions; it is chosen large enough below). -/
def satur (edges : List (Nat × Nat)) : Nat → List Nat → List Nat
  | 0, s => s
  | fuel + 1, s =>
      if (reachStep edges s).length = s.length then s
      else satur edges fuel (reachStep edges s)

/-- All node ids that can ever enter the reachability set rooted at `root`. -/
def allNodes (edges : List (Nat × Nat)) (root : Nat) : List Nat :=
  (root :: edges.map Prod.fst).dedup

/-- Modelled from the spec: the deduplicated set of components reachable
from `root` by the reverse-dependency relation — the receiver plus every
component with a dependency-edge chain pointing at it. -/
def reachableList (edges : List (Nat × Nat)) (root : Nat) : List Nat :=
  satur edges (allNodes edges root).length [root]

/-- A component is ready to be visited when none of its prerequisites is
still pending. -/
def ready (edges : List (Nat × Nat)) (pending : List Nat) (c : Nat) : Bool :=
  decide (∀ p ∈ pending, (c, p) ∉ edges)

/-- Modelled from the spec: order the visited set in dependency order by
repeatedly picking a component all of whose in-set prerequisites have
already been emitted. -/
def kahn (edges : List (Nat × Nat)) : Nat → List Nat → List Nat
  | 0, _ => []
  | fuel + 1, pending =>
      match pending.find? (ready edges pending) with
      | none => []
      | some c => c :: kahn edges fuel (pending.erase c)

/-- Modelled from the spec: the order in which `update()` visits the
reachable components: the deduplicated reachable set in dependency order. -/
def visitOrder (edges : List (Nat × Nat)) (root : Nat) : List Nat :=
  kahn edges (reachableList edges root).length (reachableList edges root)

/-- Modelled from the spec: `update()` on a changed component walks the
reverse-dependency graph and runs each visited component's recompute hook
exactly once, in dependency order; the hook is a pure self-mutation,
modelled as bumping the component's counter. -/
def update (w : World) (root : Nat) : World :=
  { w with
      counters :=
        (visitOrder w.edges root).foldl
          (fun f c => fun x => if x = c then f x + 1 else f x) w.counters }

/-- Shape of the diamond test's data provider `X`: exposes `data`. -/
def xShape : Shape := [("data", AttrImpl.ok)]

/-- Shape of the diamond test's middle component `Y`: exposes `data` and
`get_data`. -/
def yShape : Shape := [("data", AttrImpl.ok), ("get_data", AttrImpl.ok)]

/-- The diamond scenario before any slot has been read: `X` (object 0) is
bound to "Data", `Y` (object 1, holding slot 0, a required slot on "Data")
is bound to "Data2", and `Z` (object 2) holds required slots 1 and 2 on
"Data" and "Data2". -/
def diamondW0 : World :=
  { bindings := [("Data", Binding.inst 0), ("Data2", Binding.inst 1)],
    shapes := [xShape, yShape, yShape],
    classShapes := [],
    slots :=
      [{ owner := 1, featureName := "Data", constraintAttrs := ["data"],
         required := true, cache := none },
       { owner := 2, featureName := "Data", constraintAttrs := ["data"],
         required := true, cache := none },
       { owner := 2, featureName := "Data2", constraintAttrs := ["get_data"],
         required := true, cache := none }],
    edges := [],
    counters := fun _ => 0 }

/-- The diamond scenario after `Z` has read both of its slots (and `Y`, asked
for its data in the course of that, has read its own slot on "Data"). -/
def diamondResolved : World :=
  (readSlot (readSlot (readSlot diamondW0 1).2 2).2 0).2

/-- The dependency relation induced by an edge list: `c` depends on `p`. -/
def Dep (edges : List (Nat × Nat)) (c p : Nat) : Prop := (c, p) ∈ edges

/-- A required slot on the never-registered name "Nope". -/
def unboundSlotReq : Slot :=
  { owner := 0, featureName := "Nope", constraintAttrs := ["data"],
    required := true, cache := none }

/-- An optional slot on the never-registered name "Nope". -/
def unboundSlotOpt : Slot :=
  { owner := 0, featureName := "Nope", constraintAttrs := ["data"],
    required := false, cache := none }

/-- A world whose broker has no bindings at all: slot 0 is required and
slot 1 optional, both on the unbound name "Nope". -/
def unboundWorld : World :=
  { bindings := [], shapes := [], classShapes := [],
    slots := [unboundSlotReq, unboundSlotOpt], edges := [],
    counters := fun _ => 0 }

/-- A required slot on "Data" demanding the attribute `data`. -/
def violSlot : Slot :=
  { owner := 1, featureName := "Data", constraintAttrs := ["data"],
    required := true, cache := none }

/-- A world binding "Data" to a present provider (object 0) that exposes no
attributes at all, so the `data` constraint is violated. -/
def violWorld : World :=
  { bindings := [("Data", Binding.inst 0)], shapes := [[]], classShapes := [],
    slots := [violSlot], edges := [], counters := fun _ => 0 }

/-- A world binding "Data" to a provider whose `data` attribute raises an
unrelated fault (code 7) while being probed. -/
def faultWorld : World :=
  { bindings := [("Data", Binding.inst 0)],
    shapes := [[("data", AttrImpl.raise 7)]], classShapes := [],
    slots := [violSlot], edges := [], counters := fun _ => 0 }

/-- A world binding "Data" to a factory of class 0 (whose instances expose
`data`), with an empty heap: the first resolution allocates object 0. -/
def factWorld : World :=
  { bindings := [("Data", Binding.factory 0)], shapes := [],
    classShapes := [[("data", AttrImpl.ok)]], slots := [], edges := [],
    counters := fun _ => 0 }

/-- A slot that has already resolved and cached provider 5. -/
def cachedSlot : Slot :=
  { owner := 2, featureName := "Data", constraintAttrs := ["data"],
    required := true, cache := some 5 }

/-- A world in which slot 0 has already cached its resolution to object 5. -/
def cachedWorld : World :=
  { bindings := [("Data", Binding.inst 5)], shapes := [], classShapes := [],
    slots := [cachedSlot], edges := [(2, 5)], counters := fun _ => 0 }

theorem subset_reachStep (edges : List (Nat × Nat)) (s : List Nat) :
    s ⊆ reachStep edges s := fun _ hx => List.mem_append.2 (Or.inl hx)

theorem mem_reachStep (edges : List (Nat × Nat)) (s : List Nat) {x : Nat}
    (hx : x ∈ reachStep edges s) : x ∈ s ∨ ∃ p ∈ s, (x, p) ∈ edges := by
  rcases List.mem_append.1 hx with h | h
  · exact Or.inl h
  · right
    have h2 := List.mem_filter.1 (List.mem_dedup.1 h)
    rcases List.mem_map.1 h2.1 with ⟨e, he, rfl⟩
    have h3 := List.mem_filter.1 he
    exact ⟨e.2, by simpa using h3.2, by simpa using h3.1⟩

theorem nodup_reachStep (edges : List (Nat × Nat)) {s : List Nat}
    (hs : s.Nodup) : (reachStep edges s).Nodup := by
  refine hs.append (List.nodup_dedup _) ?_
  intro x hx hxn
  have h2 := List.mem_filter.1 (List.mem_dedup.1 hxn)
  have hns : x ∉ s := by simpa using h2.2
  exact hns hx

theorem reachStep_subset_allNodes (edges : List (Nat × Nat)) (root : Nat)
    {s : List Nat} (hs : ∀ x ∈ s, x ∈ allNodes edges root) :
    ∀ x ∈ reachStep edges s, x ∈ allNodes edges root := by
  intro x hx
  rcases List.mem_append.1 hx with h | h
  · exact hs x h
  · have h2 := List.mem_filter.1 (List.mem_dedup.1 h)
    rcases List.mem_map.1 h2.1 with ⟨e, he, rfl⟩
    have h3 := (List.mem_filter.1 he).1
    exact List.mem_dedup.2 (List.mem_cons.2 (Or.inr (List.mem_map.2 ⟨e, h3, rfl⟩)))

theorem subset_satur (edges : List (Nat × Nat)) :
    ∀ (fuel : Nat) (s : List Nat), s ⊆ satur edges fuel s := by
  intro fuel
  induction fuel with
  | zero => intro s x hx; exact hx
  | succ f ih =>
    intro s x hx
    simp only [satur]
    by_cases h : (reachStep edges s).length = s.length
    · rw [if_pos h]; exact hx
    · rw [if_neg h]
      exact ih (reachStep edges s) (subset_reachStep edges s hx)

theorem nodup_satur (edges : List (Nat × Nat)) :
    ∀ (fuel : Nat) {s : List Nat}, s.Nodup → (satur edges fuel s).Nodup := by
  intro fuel
  induction fuel with
  | zero => intro s hs; exact hs
  | succ f ih =>
    intro s hs
    simp only [satur]
    by_cases h : (reachStep edges s).length = s.length
    · rw [if_pos h]; exact hs
    · rw [if_neg h]; exact ih (nodup_reachStep edges hs)

theorem satur_subset_allNodes (edges : List (Nat × Nat)) (root : Nat) :
    ∀ (fuel : Nat) {s : List Nat}, (∀ x ∈ s, x ∈ allNodes edges root) →
    ∀ x ∈ satur edges fuel s, x ∈ allNodes edges root := by
  intro fuel
  induction fuel with
  | zero => intro s hs; exact hs
  | succ f ih =>
    intro s hs
    simp only [satur]
    by_cases h : (reachStep edges s).length = s.length
    · rw [if_pos h]; exact hs
    · rw [if_neg h]; exact ih (reachStep_subset_allNodes edges root hs)

theorem satur_sound (edges : List (Nat × Nat)) (root : Nat) :
    ∀ (fuel : Nat) {s : List Nat},
    (∀ y ∈ s, Relation.ReflTransGen (Dep edges) y root) →
    ∀ x ∈ satur edges fuel s, Relation.ReflTransGen (Dep edges) x root := by
  intro fuel
  induction fuel with
  | zero => intro s hs x hx; exact hs x hx
  | succ f ih =>
    intro s hs x hx
    simp only [satur] at hx
    by_cases h : (reachStep edges s).length = s.length
    · rw [if_pos h] at hx; exact hs x hx
    · rw [if_neg h] at hx
      refine ih ?_ x hx
      intro y hy
      rcases mem_reachStep edges s hy with h1 | ⟨p, hp, hyp⟩
      · exact hs y h1
      · exact Relation.ReflTransGen.head hyp (hs p hp)

theorem satur_stable (edges : List (Nat × Nat)) (root : Nat) :
    ∀ (fuel : Nat) {s : List Nat}, s.Nodup →
    (∀ x ∈ s, x ∈ allNodes edges root) →
    (allNodes edges root).length < s.length + fuel →
    reachStep edges (satur edges fuel s) = satur edges fuel s := by
  intro fuel
  induction fuel with
  | zero =>
    intro s hnd hsub hlen
    exfalso
    have hle : s.length ≤ (allNodes edges root).length :=
      (hnd.subperm hsub).length_le
    omega
  | succ f ih =>
    intro s hnd hsub hlen
    simp only [satur]
    by_cases h : (reachStep edges s).length = s.length
    · rw [if_pos h]
      have hlen2 : (newbies edges s).length = 0 := by
        have h' := h
        simp only [reachStep, List.length_append] at h'
        omega
      have hnil : newbies edges s = [] := List.length_eq_zero.1 hlen2
      show reachStep edges s = s
      simp [reachStep, hnil]
    · rw [if_neg h]
      have hle : s.length ≤ (reachStep edges s).length := by
        simp only [reachStep, List.length_append]; omega
      have hlt : s.length < (reachStep edges s).length :=
        lt_of_le_of_ne hle (fun hh => h hh.symm)
      exact ih (nodup_reachStep edges hnd)
        (reachStep_subset_allNodes edges root hsub) (by omega)

theorem closed_of_stable (edges : List (Nat × Nat)) {s : List Nat}
    (h : reachStep edges s = s) :
    ∀ c p, (c, p) ∈ edges → p ∈ s → c ∈ s := by
  intro c p hcp hp
  by_contra hc
  have hlen : (reachStep edges s).length = s.length := by rw [h]
  have hlen2 : (newbies edges s).length = 0 := by
    simp only [reachStep, List.length_append] at hlen
    omega
  have hnil : newbies edges s = [] := List.length_eq_zero.1 hlen2
  have hmem : c ∈ newbies edges s := by
    refine List.mem_dedup.2 (List.mem_filter.2 ⟨?_, by simpa using hc⟩)
    exact List.mem_map.2 ⟨(c, p), List.mem_filter.2 ⟨hcp, by simpa using hp⟩, rfl⟩
  rw [hnil] at hmem
  exact absurd hmem (List.not_mem_nil c)

theorem nodup_reachableList (edges : List (Nat × Nat)) (root : Nat) :
    (reachableList edges root).Nodup :=
  nodup_satur edges _ (List.nodup_singleton root)

theorem mem_reachableList (edges : List (Nat × Nat)) (root : Nat) (x : Nat) :
    x ∈ reachableList edges root ↔ Relation.ReflTransGen (Dep edges) x root := by
  constructor
  · intro hx
    refine satur_sound edges root _ ?_ x hx
    intro y hy
    have hy' : y = root := by simpa using hy
    subst hy'
    exact Relation.ReflTransGen.refl
  · intro hx
    have hstable : reachStep edges (reachableList edges root) =
        reachableList edges root := by
      refine satur_stable edges root _ (List.nodup_singleton root) ?_ ?_
      · intro z hz
        have hz' : z = root := by simpa using hz
        subst hz'
        exact List.mem_dedup.2 (List.mem_cons_self _ _)
      · simp only [List.length_singleton]
        omega
    have hroot : root ∈ reachableList edges root :=
      subset_satur edges _ [root] (List.mem_singleton_self root)
    have hclosed := closed_of_stable edges hstable
    induction hx using Relation.ReflTransGen.head_induction_on with
    | refl => exact hroot
    | head hab _ ih => exact hclosed _ _ hab ih

theorem kahn_subset (edges : List (Nat × Nat)) :
    ∀ (fuel : Nat) (pending : List Nat), kahn edges fuel pending ⊆ pending := by
  intro fuel
  induction fuel with
  | zero => intro pending x hx; simp [kahn] at hx
  | succ f ih =>
    intro pending x hx
    cases hfind : pending.find? (ready edges pending) with
    | none => simp [kahn, hfind] at hx
    | some c =>
      simp only [kahn, hfind] at hx
      rcases List.mem_cons.1 hx with rfl | hx'
      · exact List.mem_of_find?_eq_some hfind
      · exact List.erase_subset _ _ (ih _ hx')

theorem kahn_nodup (edges : List (Nat × Nat)) :
    ∀ (fuel : Nat) {pending : List Nat}, pending.Nodup →
    (kahn edges fuel pending).Nodup := by
  intro fuel
  induction fuel with
  | zero => intro pending _; simp [kahn]
  | succ f ih =>
    intro pending hnd
    cases hfind : pending.find? (ready edges pending) with
    | none => simp [kahn, hfind]
    | some c =>
      simp only [kahn, hfind]
      refine List.nodup_cons.2 ⟨?_, ih (List.Nodup.erase c hnd)⟩
      intro hc
      exact hnd.not_mem_erase (kahn_subset edges f _ hc)

theorem exists_rank_min (rank : Nat → Nat) :
    ∀ (l : List Nat), l ≠ [] → ∃ m ∈ l, ∀ x ∈ l, rank m ≤ rank x := by
  intro l
  induction l with
  | nil => intro h; exact absurd rfl h
  | cons a t ih =>
    intro _
    by_cases ht : t = []
    · subst ht
      refine ⟨a, List.mem_singleton_self a, ?_⟩
      intro x hx
      have hx' : x = a := by simpa using hx
      subst hx'
      exact le_refl _
    · rcases ih ht with ⟨m, hm, hmin⟩
      by_cases hc : rank a ≤ rank m
      · refine ⟨a, List.mem_cons_self a t, ?_⟩
        intro x hx
        rcases List.mem_cons.1 hx with rfl | hx'
        · exact le_refl _
        · exact le_trans hc (hmin x hx')
      · refine ⟨m, List.mem_cons_of_mem a hm, ?_⟩
        intro x hx
        rcases List.mem_cons.1 hx with rfl | hx'
        · exact le_of_not_le hc
        · exact hmin x hx'

theorem find_ready_isSome (edges : List (Nat × Nat)) (rank : Nat → Nat)
    (hrank : ∀ e ∈ edges, rank e.2 < rank e.1) {pending : List Nat}
    (hne : pending ≠ []) :
    ∃ c, pending.find? (ready edges pending) = some c := by
  rcases exists_rank_min rank pending hne with ⟨m, hm, hmin⟩
  have hready : ready edges pending m = true := by
    simp only [ready, decide_eq_true_eq]
    intro p hp hmp
    have h1 := hrank (m, p) hmp
    have h2 := hmin p hp
    simp only at h1
    omega
  cases hfind : pending.find? (ready edges pending) with
  | some c => exact ⟨c, rfl⟩
  | none =>
    exact absurd hready (List.find?_eq_none.1 hfind m hm)

theorem kahn_perm (edges : List (Nat × Nat)) (rank : Nat → Nat)
    (hrank : ∀ e ∈ edges, rank e.2 < rank e.1) :
    ∀ (fuel : Nat) (pending : List Nat), pending.length ≤ fuel →
    List.Perm (kahn edges fuel pending) pending := by
  intro fuel
  induction fuel with
  | zero =>
    intro pending hlen
    have hnil : pending = [] := List.length_eq_zero.1 (Nat.le_zero.1 hlen)
    subst hnil
    simp [kahn]
  | succ f ih =>
    intro pending hlen
    by_cases hne : pending = []
    · subst hne; simp [kahn]
    · rcases find_ready_isSome edges rank hrank hne with ⟨c, hfind⟩
      simp only [kahn, hfind]
      have hc : c ∈ pending := List.mem_of_find?_eq_some hfind
      have hlen2 : (pending.erase c).length ≤ f := by
        rw [List.length_erase_of_mem hc]
        have hpos : 1 ≤ pending.length := List.length_pos.2 hne
        omega
      exact ((ih _ hlen2).cons c).trans (List.perm_cons_erase hc).symm

theorem kahn_order (edges : List (Nat × Nat)) :
    ∀ (fuel : Nat) {pending : List Nat}, pending.Nodup →
    ∀ c p, (c, p) ∈ edges → c ∈ kahn edges fuel pending →
    p ∈ kahn edges fuel pending →
    (kahn edges fuel pending).indexOf p < (kahn edges fuel pending).indexOf c := by
  intro fuel
  induction fuel with
  | zero => intro pending _ c p _ hc _; simp [kahn] at hc
  | succ f ih =>
    intro pending hnd c p hcp hc hp
    cases hfind : pending.find? (ready edges pending) with
    | none => simp [kahn, hfind] at hc
    | some c0 =>
      simp only [kahn, hfind] at hc hp ⊢
      have hc0mem : c0 ∈ pending := List.mem_of_find?_eq_some hfind
      have hready : ∀ q ∈ pending, (c0, q) ∉ edges := by
        have hs := List.find?_some hfind
        simpa [ready] using hs
      have hsubrest : kahn edges f (pending.erase c0) ⊆ pending := fun x hx =>
        List.erase_subset _ _ (kahn_subset edges f _ hx)
      rcases List.mem_cons.1 hc with rfl | hcrest
      · exfalso
        rcases List.mem_cons.1 hp with rfl | hprest
        · exact hready p hc0mem hcp
        · exact hready p (hsubrest hprest) hcp
      · have hcne : c ≠ c0 := by
          intro hh
          subst hh
          exact hnd.not_mem_erase (kahn_subset edges f _ hcrest)
        rcases List.mem_cons.1 hp with rfl | hprest
        · rw [List.indexOf_cons_self, List.indexOf_cons_ne _ (fun hh => hcne hh.symm)]
          exact Nat.succ_pos _
        · have hpne : p ≠ c0 := by
            intro hh
            subst hh
            exact hnd.not_mem_erase (kahn_subset edges f _ hprest)
          rw [List.indexOf_cons_ne _ (fun hh => hpne hh.symm),
            List.indexOf_cons_ne _ (fun hh => hcne hh.symm)]
          exact Nat.succ_lt_succ (ih (List.Nodup.erase c0 hnd) c p hcp hcrest hprest)

theorem readSlot_cached (v : World) (i : Nat) (s : Slot) (oid : Nat)
    (hget : v.slots[i]? = some s) (hcache : s.cache = some oid) :
    readSlot v i = (Except.ok (some oid), v) := by
  simp [readSlot, hget, hcache]

/-- Claim C1: in the diamond scenario — provider `X` (object 0) bound to
"Data", component `Y` (object 1, itself holding a required slot on "Data")
bound to "Data2", and `Z` (object 2) holding required slots on both "Data"
and "Data2" — after `Z` has read both slots, `update()` on `X` runs `Y`'s
recompute hook exactly once (its counter goes 0 to 1) and `Z`'s recompute
hook exactly once (0 to 1), even though `Z` is reachable from `X` by two
distinct paths. -/
theorem diamond_update_exactly_once :
    diamondResolved.edges = [(2, 0), (2, 1), (1, 0)] ∧
    diamondResolved.counters 1 = 0 ∧
    diamondResolved.counters 2 = 0 ∧
    (update diamondResolved 0).counters 1 = 1 ∧
    (update diamondResolved 0).counters 2 = 1 := by
  decide

/-- Claim C2: for every `update()` on a changed component (assuming the
dependency graph is acyclic, witnessed by a rank function that strictly
decreases along dependency edges), the visit order computed by the update
propagator is duplicate-free, contains exactly the receiver plus every
component with a dependency-edge chain pointing at it, and is in dependency
order: every in-set prerequisite of a visited component is visited strictly
earlier, so no component's recompute hook runs before the hooks of all of
its own in-set prerequisites have run. -/
theorem update_visits_in_dependency_order (w : World) (root : Nat)
    (rank : Nat → Nat) (hrank : ∀ e ∈ w.edges, rank e.2 < rank e.1) :
    (visitOrder w.edges root).Nodup ∧
    (∀ c, c ∈ visitOrder w.edges root ↔
      Relation.ReflTransGen (Dep w.edges) c root) ∧
    (∀ c p, (c, p) ∈ w.edges → c ∈ visitOrder w.edges root →
      p ∈ visitOrder w.edges root →
      (visitOrder w.edges root).indexOf p < (visitOrder w.edges root).indexOf c) := by
  have hndR : (reachableList w.edges root).Nodup := nodup_reachableList w.edges root
  refine ⟨kahn_nodup w.edges _ hndR, ?_, kahn_order w.edges _ hndR⟩
  intro c
  rw [← mem_reachableList]
  constructor
  · intro h
    exact kahn_subset w.edges _ _ h
  · intro h
    have hperm := kahn_perm w.edges rank hrank _ (reachableList w.edges root) (le_refl _)
    exact hperm.mem_iff.2 h

/-- Witness for claim C2: the diamond scenario's edge set, with the identity
rank function. -/
theorem update_visits_in_dependency_order_witness :
    (∀ e ∈ diamondResolved.edges, e.2 < e.1) ∧
    ((visitOrder diamondResolved.edges 0).Nodup ∧
     (∀ c, c ∈ visitOrder diamondResolved.edges 0 ↔
       Relation.ReflTransGen (Dep diamondResolved.edges) c 0) ∧
     (∀ c p, (c, p) ∈ diamondResolved.edges →
       c ∈ visitOrder diamondResolved.edges 0 →
       p ∈ visitOrder diamondResolved.edges 0 →
       (visitOrder diamondResolved.edges 0).indexOf p <
         (visitOrder diamondResolved.edges 0).indexOf c)) :=
  ⟨by decide,
   update_visits_in_dependency_order diamondResolved 0 (fun n => n) (by decide)⟩

/-- Claim C3: the first read of a required slot whose referenced name has
never been registered sees the broker's `NameNotBound` lookup miss and maps
it to `MissingDependency`, reported to the caller. -/
theorem required_slot_unbound_raises_missing (w : World) (i : Nat) (s : Slot)
    (hget : w.slots[i]? = some s) (hreq : s.required = true)
    (hcache : s.cache = none)
    (hunbound : lookupBinding w.bindings s.featureName = none) :
    resolve w s.featureName = (Except.error Err.nameNotBound, w) ∧
    readSlot w i = (Except.error Err.missingDependency, w) := by
  have hres : resolve w s.featureName = (Except.error Err.nameNotBound, w) := by
    simp [resolve, hunbound]
  refine ⟨hres, ?_⟩
  simp [readSlot, hget, hcache, hres, hreq]

/-- Witness for claim C3: a required slot on the unbound name "Nope". -/
theorem required_slot_unbound_raises_missing_witness :
    unboundWorld.slots[0]? = some unboundSlotReq ∧
    unboundSlotReq.required = true ∧
    unboundSlotReq.cache = none ∧
    lookupBinding unboundWorld.bindings unboundSlotReq.featureName = none ∧
    (resolve unboundWorld unboundSlotReq.featureName =
        (Except.error Err.nameNotBound, unboundWorld) ∧
     readSlot unboundWorld 0 = (Except.error Err.missingDependency, unboundWorld)) :=
  ⟨rfl, rfl, rfl, rfl,
   required_slot_unbound_raises_missing unboundWorld 0 unboundSlotReq rfl rfl rfl rfl⟩

/-- Claim C4: reading an optional slot whose referenced name has never been
registered does not raise; it yields the absent value. -/
theorem optional_slot_unbound_yields_absent (w : World) (i : Nat) (s : Slot)
    (hget : w.slots[i]? = some s) (hreq : s.required = false)
    (hcache : s.cache = none)
    (hunbound : lookupBinding w.bindings s.featureName = none) :
    readSlot w i = (Except.ok none, w) := by
  have hres : resolve w s.featureName = (Except.error Err.nameNotBound, w) := by
    simp [resolve, hunbound]
  simp [readSlot, hget, hcache, hres, hreq]

/-- Witness for claim C4: an optional slot on the unbound name "Nope". -/
theorem optional_slot_unbound_yields_absent_witness :
    unboundWorld.slots[1]? = some unboundSlotOpt ∧
    unboundSlotOpt.required = false ∧
    unboundSlotOpt.cache = none ∧
    lookupBinding unboundWorld.bindings unboundSlotOpt.featureName = none ∧
    readSlot unboundWorld 1 = (Except.ok none, unboundWorld) :=
  ⟨rfl, rfl, rfl, rfl,
   optional_slot_unbound_yields_absent unboundWorld 1 unboundSlotOpt rfl rfl rfl rfl⟩

/-- Claim C5: a slot — required or optional alike — whose referenced name
resolves to a present provider failing the capability constraint's shape
check raises `ContractViolation`; optionality softens only absence, never a
shape mismatch. -/
theorem nonconforming_provider_raises_contract (w w' : World) (i : Nat)
    (s : Slot) (oid : Nat)
    (hget : w.slots[i]? = some s) (hcache : s.cache = none)
    (hres : resolve w s.featureName = (Except.ok oid, w'))
    (hcheck : checkAttrs (w'.shapes.getD oid []) s.constraintAttrs =
      CheckResult.violated) :
    readSlot w i = (Except.error Err.contractViolation, w') := by
  rw [List.getD_eq_getElem?_getD] at hcheck
  simp [readSlot, hget, hcache, hres, hcheck]

/-- Witness for claim C5: "Data" bound to an attribute-less provider probed
for `data`. -/
theorem nonconforming_provider_raises_contract_witness :
    violWorld.slots[0]? = some violSlot ∧
    violSlot.cache = none ∧
    resolve violWorld violSlot.featureName = (Except.ok 0, violWorld) ∧
    checkAttrs (violWorld.shapes.getD 0 []) violSlot.constraintAttrs =
      CheckResult.violated ∧
    readSlot violWorld 0 = (Except.error Err.contractViolation, violWorld) :=
  ⟨rfl, rfl, rfl, rfl,
   nonconforming_provider_raises_contract violWorld violWorld 0 violSlot 0
     rfl rfl rfl rfl⟩

/-- Claim C6: a fault raised while the capability constraint probes a found
provider (not an absence) propagates to the slot reader unchanged — for
required and optional slots alike — and is never reinterpreted as
`MissingDependency` or `ContractViolation`. -/
theorem constraint_fault_propagates (w w' : World) (i : Nat) (s : Slot)
    (oid c : Nat)
    (hget : w.slots[i]? = some s) (hcache : s.cache = none)
    (hres : resolve w s.featureName = (Except.ok oid, w'))
    (hcheck : checkAttrs (w'.shapes.getD oid []) s.constraintAttrs =
      CheckResult.faulted c) :
    readSlot w i = (Except.error (Err.fault c), w') := by
  rw [List.getD_eq_getElem?_getD] at hcheck
  simp [readSlot, hget, hcache, hres, hcheck]

/-- Witness for claim C6: "Data" bound to a provider whose `data` attribute
raises fault 7 while probed; the reader sees exactly fault 7. -/
theorem constraint_fault_propagates_witness :
    faultWorld.slots[0]? = some violSlot ∧
    violSlot.cache = none ∧
    resolve faultWorld violSlot.featureName = (Except.ok 0, faultWorld) ∧
    checkAttrs (faultWorld.shapes.getD 0 []) violSlot.constraintAttrs =
      CheckResult.faulted 7 ∧
    readSlot faultWorld 0 = (Except.error (Err.fault 7), faultWorld) :=
  ⟨rfl, rfl, rfl, rfl,
   constraint_fault_propagates faultWorld faultWorld 0 violSlot 0 7
     rfl rfl rfl rfl⟩

/-- Claim C7: `register(name, instance)` returns the exact instance passed
in, identity-preserved. -/
theorem register_returns_instance (w : World) (n : String) (oid : Nat) :
    register w n (Binding.inst oid) = (Except.ok oid, provide w n (Binding.inst oid)) := by
  simp [register, resolve, provide, lookupBinding, List.find?_cons]

/-- Claim C8: a factory binding is instantiated at most once: the first
resolution allocates exactly one fresh instance and memoizes the name to an
instance binding, every subsequent resolution of that name observes the
identical instance with no further instantiation, and reading an
already-resolved slot returns the identical cached instance. -/
theorem factory_singleton (w w1 : World) (n : String) (cls : Nat)
    (r : Except Err Nat)
    (hl : lookupBinding w.bindings n = some (Binding.factory cls))
    (hres : resolve w n = (r, w1)) :
    r = Except.ok w.shapes.length ∧
    w1.shapes.length = w.shapes.length + 1 ∧
    lookupBinding w1.bindings n = some (Binding.inst w.shapes.length) ∧
    resolve w1 n = (Except.ok w.shapes.length, w1) ∧
    (∀ (v : World) (i : Nat) (s : Slot) (oid : Nat), v.slots[i]? = some s →
      s.cache = some oid → readSlot v i = (Except.ok (some oid), v)) := by
  simp only [resolve, hl] at hres
  rw [Prod.mk.injEq] at hres
  obtain ⟨h1, h2⟩ := hres
  subst h1
  subst h2
  have hlb : lookupBinding ((n, Binding.inst w.shapes.length) :: w.bindings) n =
      some (Binding.inst w.shapes.length) := by
    simp [lookupBinding, List.find?_cons]
  refine ⟨rfl, by simp, hlb, ?_, readSlot_cached⟩
  simp [resolve, hlb]

/-- Witness for claim C8: "Data" bound to a factory of class 0 over an empty
heap; the first resolution allocates object 0 and memoizes it. -/
theorem factory_singleton_witness :
    lookupBinding factWorld.bindings "Data" = some (Binding.factory 0) ∧
    ((resolve factWorld "Data").1 = Except.ok factWorld.shapes.length ∧
     (resolve factWorld "Data").2.shapes.length = factWorld.shapes.length + 1 ∧
     lookupBinding (resolve factWorld "Data").2.bindings "Data" =
       some (Binding.inst factWorld.shapes.length) ∧
     resolve (resolve factWorld "Data").2 "Data" =
       (Except.ok factWorld.shapes.length, (resolve factWorld "Data").2) ∧
     (∀ (v : World) (i : Nat) (s : Slot) (oid : Nat), v.slots[i]? = some s →
       s.cache = some oid → readSlot v i = (Except.ok (some oid), v))) :=
  ⟨rfl,
   factory_singleton factWorld (resolve factWorld "Data").2 "Data" 0
     (resolve factWorld "Data").1 rfl rfl⟩

/-- Claim C9: re-registering a different binding under a name after a slot
has already resolved and cached its provider leaves the cached resolution
unchanged: later reads still return the originally cached provider, with no
re-resolution and no retroactive rewiring. -/
theorem rebind_keeps_cached_resolution (w : World) (n : String) (b : Binding)
    (i : Nat) (s : Slot) (oid : Nat)
    (hget : w.slots[i]? = some s) (hcache : s.cache = some oid) :
    readSlot (provide w n b) i = (Except.ok (some oid), provide w n b) :=
  readSlot_cached (provide w n b) i s oid hget hcache

/-- Witness for claim C9: slot 0 cached provider 5; rebinding "Data" to
object 9 does not rewire the cached read. -/
theorem rebind_keeps_cached_resolution_witness :
    cachedWorld.slots[0]? = some cachedSlot ∧
    cachedSlot.cache = some 5 ∧
    readSlot (provide cachedWorld "Data" (Binding.inst 9)) 0 =
      (Except.ok (some 5), provide cachedWorld "Data" (Binding.inst 9)) :=
  ⟨rfl, rfl,
   rebind_keeps_cached_resolution cachedWorld "Data" (Binding.inst 9) 0
     cachedSlot 5 rfl rfl⟩

/-- Claim C10: the absent value produced by reading an optional slot on an
unbound name is exactly the distinguished `none` value — so it tests false
under `Option.isSome` and callers can guard the optional dependency with a
truth test before dereferencing it. -/
theorem optional_absent_value_is_none (w : World) (i : Nat) (s : Slot)
    (hget : w.slots[i]? = some s) (hreq : s.required = false)
    (hcache : s.cache = none)
    (hunbound : lookupBinding w.bindings s.featureName = none) :
    (readSlot w i).1 = Except.ok none ∧
    ∀ o : Option Nat, (readSlot w i).1 = Except.ok o → o.isSome = false := by
  have hres : resolve w s.featureName = (Except.error Err.nameNotBound, w) := by
    simp [resolve, hunbound]
  have h : readSlot w i = (Except.ok none, w) := by
    simp [readSlot, hget, hcache, hres, hreq]
  rw [h]
  exact ⟨rfl, by intro o ho; cases ho; rfl⟩

/-- Witness for claim C10: the optional slot on the unbound name "Nope"
yields exactly `none`. -/
theorem optional_absent_value_is_none_witness :
    unboundWorld.slots[1]? = some unboundSlotOpt ∧
    unboundSlotOpt.required = false ∧
    unboundSlotOpt.cache = none ∧
    lookupBinding unboundWorld.bindings unboundSlotOpt.featureName = none ∧
    ((readSlot unboundWorld 1).1 = Except.ok none ∧
     ∀ o : Option Nat, (readSlot unboundWorld 1).1 = Except.ok o →
       o.isSome = false) :=
  ⟨rfl, rfl, rfl, rfl,
   optional_absent_value_is_none unboundWorld 1 unboundSlotOpt rfl rfl rfl rfl⟩

end SpikeBeans
